import Mathlib

/-!
Verification development for the congressional-reports-summaries repository.

Strings are modelled as `List Char`.  The chunked-summarization pipeline of
`src/pages/api/summarizePdf.js` and `src/unnamed/part_002` is embedded
shallowly: the pure text functions (`splitIntoChunks`, the whitespace split,
the chunk-summary assembly) are Lean functions translated from the JS source;
the stateful request handlers are functions from an explicit store / fault
environment to a run result that records the response, the resulting store,
and the external summarizer invocations.
-/

/-- Whitespace test matching the JS regex `\s` on the ASCII range
(space, tab, line feed, carriage return, vertical tab, form feed).
The Unicode space classes that `\s` additionally matches are omitted;
none of the properties below depend on them. -/
def isWS (c : Char) : Bool :=
  c == ' ' || c == '\t' || c == '\n' || c == '\r' ||
  c == Char.ofNat 11 || c == Char.ofNat 12

/-- Scanner for the JS expression `text.split(/\s+/)`: consumes the string,
collecting the current field in `acc` (reversed); a whitespace character ends
the field, the whole maximal whitespace run is skipped, and a new field
starts after it.  Mirrors ECMAScript `String.prototype.split` with a `\s+`
separator: the empty string yields `[""]`, and leading/trailing whitespace
produce leading/trailing empty fields. -/
def splitWSAux : List Char → List Char → List (List Char)
  | [], acc => [acc.reverse]
  | c :: rest, acc =>
    if isWS c then
      match rest with
      | [] => [acc.reverse, []]
      | d :: rest' =>
        if isWS d then splitWSAux (d :: rest') acc
        else acc.reverse :: splitWSAux rest' [d]
    else splitWSAux rest (c :: acc)

/-- The JS expression `text.split(/\s+/)` from `splitIntoChunks`
(`src/pages/api/summarizePdf.js` line 107, `src/unnamed/part_002` line 21). -/
def jsSplitWhitespace (s : List Char) : List (List Char) :=
  splitWSAux s []

/-- Worker for `chunkGroups`: `acc` is the current group (reversed) and `k`
the number of elements still to be added to it before it is emitted. -/
def chunkGroupsAux (maxWords : Nat) : List α → List α → Nat → List (List α)
  | [], acc, _ => [acc.reverse]
  | w :: rest, acc, k =>
    match k with
    | 0 => acc.reverse :: chunkGroupsAux maxWords rest [w] (maxWords - 1)
    | k' + 1 => chunkGroupsAux maxWords rest (w :: acc) k'

/-- The grouping performed by the JS loop
`for (let i = 0; i < words.length; i += maxWords) chunks.push(words.slice(i, i + maxWords) ...)`:
successive blocks of `maxWords` elements (see `chunkGroups_cons` for the
`take`/`drop` characterization).  For `maxWords = 0` the JS loop does not
terminate; the model is total there, and every property proved below
assumes `1 ≤ maxWords`. -/
def chunkGroups (maxWords : Nat) : List α → List (List α)
  | [] => []
  | w :: rest => chunkGroupsAux maxWords rest [w] (maxWords - 1)

/-- ECMAScript `Array.prototype.join(sep)`: the empty array joins to the
empty string, a singleton to its element, otherwise elements are separated
by `sep`. -/
def joinWith (sep : List Char) : List (List Char) → List Char
  | [] => []
  | [x] => x
  | x :: y :: rest => x ++ sep ++ joinWith sep (y :: rest)

/-- `splitIntoChunks(text, maxWords)` from `src/pages/api/summarizePdf.js`
lines 106–113 (identical in `src/unnamed/part_002` lines 20–29 apart from
the default value of `maxWords`, which the model takes as an explicit
argument): split the text on whitespace runs, group the resulting words in
blocks of `maxWords`, and re-join each block with single spaces. -/
def splitIntoChunks (text : List Char) (maxWords : Nat) : List (List Char) :=
  (chunkGroups maxWords (jsSplitWhitespace text)).map (joinWith [' '])

/-- Number of whitespace-separated words of a string: the number of
non-empty fields of the whitespace split (equivalently, the number of
maximal runs of non-whitespace characters). -/
def countWords (s : List Char) : Nat :=
  ((jsSplitWhitespace s).filter (fun w => !w.isEmpty)).length

/-- Modelled from the spec (§8, claim C3's "whitespace-normalized form of
text"): the original text with every maximal run of whitespace collapsed
to one space.  Used only as the spec-side reference for the round-trip
property. -/
def normalizeWS : List Char → List Char
  | [] => []
  | c :: rest =>
    if isWS c then
      match rest with
      | [] => [' ']
      | d :: rest' =>
        if isWS d then normalizeWS (d :: rest')
        else ' ' :: normalizeWS (d :: rest')
    else c :: normalizeWS rest

/-- The paragraph separator `"\n\n"` used to join chunk summaries
(`.join("\n\n")`, `src/unnamed/part_002` line 119,
`src/pages/api/summarizePdf.js` line 219). -/
def nl2 : List Char := ['\n', '\n']

/-- A JavaScript request-body value, as far as the handlers inspect one:
`undefined`, `null`, a number, a string, or a boolean. -/
inductive JSVal where
  | undef : JSVal
  | nullv : JSVal
  | num : Int → JSVal
  | str : List Char → JSVal
  | bool : Bool → JSVal
deriving DecidableEq

/-- JavaScript falsiness for the modelled values: `undefined`, `null`,
`0`, `""` and `false` are falsy (the `!pdfUrl || !issueNumber` test). -/
def falsy : JSVal → Bool
  | .undef => true
  | .nullv => true
  | .num n => n == 0
  | .str s => s.isEmpty
  | .bool b => !b

/-- The `typeof issueNumber !== "string" && typeof issueNumber !== "number"`
validation of `src/unnamed/part_002` lines 65–67. -/
def isStrOrNum : JSVal → Bool
  | .num _ => true
  | .str _ => true
  | _ => false

/-- The durable MongoDB state seen by the handlers: the `summaries`
collection keyed by `issueNumber` (document cache) and the `chunkSummaries`
collection keyed by `(issueNumber, chunkIndex)` (chunk cache).  Only the
`summary` field of a record is relevant to the control flow, so a record is
modelled by its summary text. -/
structure Store where
  doc : JSVal → Option (List Char)
  chunk : JSVal → Nat → Option (List Char)

/-- The chunk-cache `updateOne(..., { $set: ... }, { upsert: true })`
(`src/unnamed/part_002` lines 108–112). -/
def putChunk (st : Store) (id : JSVal) (i : Nat) (s : List Char) : Store :=
  { st with chunk := fun id' j => if id' = id ∧ j = i then some s else st.chunk id' j }

/-- The document-cache `updateOne(..., { $set: ... }, { upsert: true })`
(`src/unnamed/part_002` lines 122–126). -/
def putDoc (st : Store) (id : JSVal) (s : List Char) : Store :=
  { st with doc := fun id' => if id' = id then some s else st.doc id' }

/-- Fault injection for the effectful operations: a `true` entry makes the
corresponding `await` throw (document-cache `findOne`, the PDF download /
parse, the chunk-cache `findOne` at an index, the OpenAI call at an index).
Any such throw is caught by the handler's outer `try`/`catch`. -/
structure Faults where
  docFindFails : Bool
  fetchFails : Bool
  chunkFindFails : Nat → Bool
  sumFails : Nat → Bool

/-- A run in which every effectful operation succeeds. -/
def noFaults : Faults :=
  { docFindFails := false, fetchFails := false
    chunkFindFails := fun _ => false, sumFails := fun _ => false }

/-- The request fields the handlers inspect. -/
structure Req where
  method : List Char
  pdfUrl : JSVal
  issueNumber : JSVal

/-- The string `"POST"`. -/
def postMethod : List Char := ['P', 'O', 'S', 'T']

/-- Outcome of a handler run, by HTTP status: `ok` is the 200 response
carrying the summary, `badRequest` the 400 validation error,
`methodNotAllowed` the 405, `serverError` the 500 `"Failed to summarize
PDF"` produced by the outer `catch`. -/
inductive Resp where
  | ok : List Char → Resp
  | badRequest : Resp
  | methodNotAllowed : Resp
  | serverError : Resp
deriving DecidableEq

/-- Result of the per-chunk loop: the store after the loop's cache writes,
the chunk-cache lookups performed (by index, in order), the external
summarizer invocations performed (by index, in order), and — on success —
the accumulated `chunkSummaries` array of `(index, content)` pairs.
`err` is a throw escaping to the outer `catch`. -/
inductive LoopOut where
  | ok : Store → List Nat → List Nat → List (Nat × List Char) → LoopOut
  | err : Store → List Nat → List Nat → LoopOut

/-- The `for (let i = 0; i < chunks.length; i++)` loop of
`src/unnamed/part_002` lines 92–115: look the chunk up in the chunk cache;
a record with a truthy (non-empty) summary is reused, anything else leads
to an external summarization call whose result is written through to the
chunk cache.  `f` is the external service: `f i c` is the text the model
returns for chunk `i` with content `c` (`summarizeChunk`). -/
def chunkLoop (id : JSVal) (faults : Faults) (f : Nat → List Char → List Char) :
    List (List Char) → Nat → Store → LoopOut
  | [], _, st => .ok st [] [] []
  | c :: rest, i, st =>
    if faults.chunkFindFails i then .err st [i] []
    else
      match st.chunk id i with
      | some s =>
        if s.isEmpty then
          -- cached record with an empty summary: `cachedChunk.summary` is falsy
          if faults.sumFails i then .err st [i] [i]
          else
            match chunkLoop id faults f rest (i + 1) (putChunk st id i (f i c)) with
            | .ok st' rs cs sums => .ok st' (i :: rs) (i :: cs) ((i, f i c) :: sums)
            | .err st' rs cs => .err st' (i :: rs) (i :: cs)
        else
          match chunkLoop id faults f rest (i + 1) st with
          | .ok st' rs cs sums => .ok st' (i :: rs) cs ((i, s) :: sums)
          | .err st' rs cs => .err st' (i :: rs) cs
      | none =>
        if faults.sumFails i then .err st [i] [i]
        else
          match chunkLoop id faults f rest (i + 1) (putChunk st id i (f i c)) with
          | .ok st' rs cs sums => .ok st' (i :: rs) (i :: cs) ((i, f i c) :: sums)
          | .err st' rs cs => .err st' (i :: rs) (i :: cs)

/-- Stable insertion of an indexed chunk summary, keeping ascending index
order (insertion after existing equal keys). -/
def insertByIdx (x : Nat × List Char) : List (Nat × List Char) → List (Nat × List Char)
  | [] => [x]
  | y :: ys => if y.1 ≤ x.1 then y :: insertByIdx x ys else x :: y :: ys

/-- The defensive `chunkSummaries.sort((a, b) => a.index - b.index)`
(`src/unnamed/part_002` line 118, `src/pages/api/summarizePdf.js` line 218),
modelled as a stable sort by index. -/
def sortByIndex : List (Nat × List Char) → List (Nat × List Char)
  | [] => []
  | x :: xs => insertByIdx x (sortByIndex xs)

/-- The assembly step (`src/unnamed/part_002` lines 118–119): sort the
collected chunk summaries by index and join their contents with the
blank-line separator. -/
def assemble (cs : List (Nat × List Char)) : List Char :=
  joinWith nl2 ((sortByIndex cs).map (fun p => p.2))

/-- Result of one run of the chunked handler: response, resulting store,
external summarizer invocations (`calls`, by chunk index in order), number
of document-cache lookups, chunk-cache lookups (by index in order), whether
the PDF was fetched, and whether `splitIntoChunks` ran. -/
structure RunResult where
  resp : Resp
  store : Store
  calls : List Nat
  docReads : Nat
  chunkReads : List Nat
  fetched : Bool
  didSplit : Bool

/-- The part of the `src/unnamed/part_002` handler that runs after a
document-cache miss (lines 82–128): PDF fetch + text extraction (modelled
by the oracle `docText`, the text the PDF at `pdfUrl` extracts to), split,
per-chunk cache/compute loop, assembly, document-cache write-through. -/
def handlerChunkedBody (maxWords : Nat) (st : Store) (faults : Faults)
    (f : Nat → List Char → List Char) (docText : List Char) (req : Req) : RunResult :=
  if faults.fetchFails then
    ⟨.serverError, st, [], 1, [], true, false⟩
  else
    match chunkLoop req.issueNumber faults f (splitIntoChunks docText maxWords) 0 st with
    | .err st' rs cs => ⟨.serverError, st', cs, 1, rs, true, true⟩
    | .ok st' rs cs sums =>
      ⟨.ok (assemble sums), putDoc st' req.issueNumber (assemble sums), cs, 1, rs, true, true⟩

/-- The request handler of `src/unnamed/part_002` lines 53–133 (the
non-streaming chunked summarization endpoint): method check, presence and
type validation of `pdfUrl` / `issueNumber`, document-cache short-circuit
(`existingSummary && existingSummary.summary`, so a record with an empty
summary falls through), then `handlerChunkedBody`.  `maxWords` is the
splitter parameter (the JS call site uses the default `10000`). -/
def handlerChunked (maxWords : Nat) (st : Store) (faults : Faults)
    (f : Nat → List Char → List Char) (docText : List Char) (req : Req) : RunResult :=
  if req.method ≠ postMethod then
    ⟨.methodNotAllowed, st, [], 0, [], false, false⟩
  else if falsy req.pdfUrl || falsy req.issueNumber then
    ⟨.badRequest, st, [], 0, [], false, false⟩
  else if !isStrOrNum req.issueNumber then
    ⟨.badRequest, st, [], 0, [], false, false⟩
  else if faults.docFindFails then
    ⟨.serverError, st, [], 1, [], false, false⟩
  else
    match st.doc req.issueNumber with
    | some s =>
      if s.isEmpty then
        handlerChunkedBody maxWords st faults f docText req
      else
        ⟨.ok s, st, [], 1, [], false, false⟩
    | none => handlerChunkedBody maxWords st faults f docText req

/-- A record written to the streaming response
(`src/pages/api/summarizePdf.js` lines 183–229): the opening
`{"totalChunks": n, "chunks":[` write, one `{index, content}` write per
chunk, the final write carrying the assembled summary, and the trailing
error record written by the `catch` once headers are sent. -/
inductive Event where
  | start : Nat → Event
  | chunkDone : Nat → List Char → Event
  | final : List Char → Event
  | errorMark : Event
deriving DecidableEq

/-- Result of the streaming per-chunk loop: resulting store, emitted
per-chunk records, summarizer invocations, and on success the accumulated
`chunkSummaries` array. -/
inductive StreamLoopOut where
  | ok : Store → List Event → List Nat → List (Nat × List Char) → StreamLoopOut
  | err : Store → List Event → List Nat → StreamLoopOut

/-- The streaming per-chunk loop of `src/pages/api/summarizePdf.js`
lines 188–213: same cache/compute/write-through logic as `chunkLoop`, but
each completed chunk (cached or fresh) is written to the response as an
`{index, content}` record before the next index is processed. -/
def streamLoop (id : JSVal) (faults : Faults) (f : Nat → List Char → List Char) :
    List (List Char) → Nat → Store → StreamLoopOut
  | [], _, st => .ok st [] [] []
  | c :: rest, i, st =>
    if faults.chunkFindFails i then .err st [] []
    else
      match st.chunk id i with
      | some s =>
        if s.isEmpty then
          if faults.sumFails i then .err st [] []
          else
            match streamLoop id faults f rest (i + 1) (putChunk st id i (f i c)) with
            | .ok st' evs cs sums =>
              .ok st' (.chunkDone i (f i c) :: evs) (i :: cs) ((i, f i c) :: sums)
            | .err st' evs cs => .err st' (.chunkDone i (f i c) :: evs) (i :: cs)
        else
          match streamLoop id faults f rest (i + 1) st with
          | .ok st' evs cs sums => .ok st' (.chunkDone i s :: evs) cs ((i, s) :: sums)
          | .err st' evs cs => .err st' (.chunkDone i s :: evs) cs
      | none =>
        if faults.sumFails i then .err st [] []
        else
          match streamLoop id faults f rest (i + 1) (putChunk st id i (f i c)) with
          | .ok st' evs cs sums =>
            .ok st' (.chunkDone i (f i c) :: evs) (i :: cs) ((i, f i c) :: sums)
          | .err st' evs cs => .err st' (.chunkDone i (f i c) :: evs) (i :: cs)

/-- Result of one run of the streaming handler: response, resulting store,
summarizer invocations, and the ordered records written to the response
stream (empty when the run ended before streaming began). -/
structure StreamResult where
  resp : Resp
  store : Store
  calls : List Nat
  events : List Event

/-- The part of the streaming handler of `src/pages/api/summarizePdf.js`
that runs after a document-cache miss (lines 174–229): fetch/extract,
split, then the streamed records: the `totalChunks` start record, one
record per chunk from `streamLoop`, and the final record carrying the
assembled summary (which is also written through to the document cache).
A throw after streaming began appends the trailing error record instead of
producing a 500 response. -/
def handlerStreamingBody (maxWords : Nat) (st : Store) (faults : Faults)
    (f : Nat → List Char → List Char) (docText : List Char) (req : Req) : StreamResult :=
  if faults.fetchFails then
    ⟨.serverError, st, [], []⟩
  else
    match streamLoop req.issueNumber faults f (splitIntoChunks docText maxWords) 0 st with
    | .err st' evs cs =>
      ⟨.serverError, st', cs,
        .start (splitIntoChunks docText maxWords).length :: evs ++ [.errorMark]⟩
    | .ok st' evs cs sums =>
      ⟨.ok (assemble sums), putDoc st' req.issueNumber (assemble sums), cs,
        .start (splitIntoChunks docText maxWords).length :: evs ++ [.final (assemble sums)]⟩

/-- The streaming request handler of `src/pages/api/summarizePdf.js`
lines 153–239: method and presence checks, document-cache short-circuit
(a plain JSON response, no streaming), then `handlerStreamingBody`.
`maxWords` is the splitter parameter (the JS call site uses the default
`20000`). -/
def handlerStreaming (maxWords : Nat) (st : Store) (faults : Faults)
    (f : Nat → List Char → List Char) (docText : List Char) (req : Req) : StreamResult :=
  if req.method ≠ postMethod then
    ⟨.methodNotAllowed, st, [], []⟩
  else if falsy req.pdfUrl || falsy req.issueNumber then
    ⟨.badRequest, st, [], []⟩
  else if faults.docFindFails then
    ⟨.serverError, st, [], []⟩
  else
    match st.doc req.issueNumber with
    | some s =>
      if s.isEmpty then handlerStreamingBody maxWords st faults f docText req
      else ⟨.ok s, st, [], []⟩
    | none => handlerStreamingBody maxWords st faults f docText req

example : jsSplitWhitespace [] = [[]] := by decide
example : jsSplitWhitespace [' '] = [[], []] := by decide
example : jsSplitWhitespace [' ', 'a'] = [[], ['a']] := by decide
example : jsSplitWhitespace ['a', ' ', ' ', 'b'] = [['a'], ['b']] := by decide
example : splitIntoChunks [] 1 = [[]] := by decide
example : splitIntoChunks ['a', ' ', 'b', ' ', 'c'] 2 = [['a', ' ', 'b'], ['c']] := by decide
example : splitIntoChunks [' ', 'a', ' ', 'b'] 1 = [[], ['a'], ['b']] := by decide
example : normalizeWS ['a', ' ', ' ', 'b', ' '] = ['a', ' ', 'b', ' '] := by decide
example : countWords ['a', ' ', 'b'] = 2 := by decide
example : countWords [] = 0 := by decide

-- scratch: concrete handler runs evaluate
example :
    (handlerChunked 1 ⟨fun _ => none, fun _ _ => none⟩ noFaults
      (fun _ _ => ['S']) ['x', ' ', 'y'] ⟨postMethod, .str ['u'], .str ['n']⟩).resp
      = .ok ['S', '\n', '\n', 'S'] := by decide

example :
    (handlerChunked 1 ⟨fun _ => none, fun _ _ => none⟩ noFaults
      (fun _ _ => ['S']) ['x', ' ', 'y'] ⟨postMethod, .str ['u'], .str ['n']⟩).calls
      = [0, 1] := by decide

example :
    (handlerChunked 1 ⟨fun _ => none, fun _ _ => none⟩ noFaults
      (fun _ _ => ['S']) ['x'] ⟨postMethod, .str ['u'], .num 0⟩).resp
      = .badRequest := by decide

example :
    (handlerStreaming 1 ⟨fun _ => none, fun _ _ => none⟩ noFaults
      (fun _ _ => ['S']) ['x', ' ', 'y'] ⟨postMethod, .str ['u'], .str ['n']⟩).events
      = [.start 2, .chunkDone 0 ['S'], .chunkDone 1 ['S'],
         .final ['S', '\n', '\n', 'S']] := by decide

-- scratch: the two-run scenario behind claim C4's counterexample
example :
    (handlerChunked 1
      (handlerChunked 1 ⟨fun _ => none, fun _ _ => none⟩ noFaults
        (fun _ _ => []) ['x'] ⟨postMethod, .str ['u'], .str ['n']⟩).store
      noFaults (fun _ _ => []) ['x'] ⟨postMethod, .str ['u'], .str ['n']⟩).calls
      = [0] := by decide

/-! ### Properties of the whitespace split -/

/-- Unfolding of the scanner at a non-whitespace character: the character
joins the current field. -/
theorem splitWSAux_cons_of_not_ws (c : Char) (rest acc : List Char) (h : ¬ isWS c = true) :
    splitWSAux (c :: rest) acc = splitWSAux rest (c :: acc) := by
  cases rest <;> simp [splitWSAux, h]

/-- The split never returns an empty field list (JS `split` returns `[""]`
even on the empty string). -/
theorem splitWSAux_ne_nil (s acc : List Char) : splitWSAux s acc ≠ [] := by
  induction s, acc using splitWSAux.induct with
  | case1 acc => simp [splitWSAux]
  | case2 c acc h => simp [splitWSAux, h]
  | case3 c acc h d rest' hd ih => simpa [splitWSAux, h, hd] using ih
  | case4 c acc h d rest' hd ih => simp [splitWSAux, h, hd]
  | case5 c rest acc h ih => rw [splitWSAux_cons_of_not_ws c rest acc h]; exact ih

/-- Unfolding of the scanner at a whitespace character: the current field is
emitted and the whole whitespace run is skipped. -/
theorem splitWSAux_cons_of_ws (c : Char) (rest acc : List Char) (h : isWS c = true) :
    splitWSAux (c :: rest) acc = acc.reverse :: splitWSAux (rest.dropWhile isWS) [] := by
  induction rest generalizing c acc with
  | nil => simp [splitWSAux, h, List.dropWhile]
  | cons d rest' ih =>
    by_cases hd : isWS d
    · have h1 : splitWSAux (c :: d :: rest') acc = splitWSAux (d :: rest') acc := by
        simp [splitWSAux, h, hd]
      rw [h1, ih d acc hd]
      simp [List.dropWhile_cons, hd]
    · simp only [List.dropWhile_cons]
      rw [if_neg (by simp [hd])]
      rw [show splitWSAux (c :: d :: rest') acc
            = acc.reverse :: splitWSAux rest' [d] by simp [splitWSAux, h, hd]]
      rw [splitWSAux_cons_of_not_ws d rest' [] hd]

/-- Unfolding of `normalizeWS` at a whitespace character: the whole
whitespace run collapses to one space. -/
theorem normalizeWS_cons_of_ws (c : Char) (rest : List Char) (h : isWS c = true) :
    normalizeWS (c :: rest) = ' ' :: normalizeWS (rest.dropWhile isWS) := by
  induction rest generalizing c with
  | nil => simp [normalizeWS, h, List.dropWhile]
  | cons d rest' ih =>
    by_cases hd : isWS d
    · rw [show normalizeWS (c :: d :: rest') = normalizeWS (d :: rest') by
        simp [normalizeWS, h, hd]]
      rw [ih d hd]
      simp [List.dropWhile_cons, hd]
    · simp only [List.dropWhile_cons]
      rw [if_neg (by simp [hd])]
      simp [normalizeWS, h, hd]

/-- Unfolding of `normalizeWS` at a non-whitespace character. -/
theorem normalizeWS_cons_of_not_ws (c : Char) (rest : List Char) (h : ¬ isWS c = true) :
    normalizeWS (c :: rest) = c :: normalizeWS rest := by
  cases rest <;> simp [normalizeWS, h]

/-- `joinWith` on a list with at least two elements. -/
theorem joinWith_cons_of_ne_nil (sep x : List Char) (l : List (List Char)) (h : l ≠ []) :
    joinWith sep (x :: l) = x ++ sep ++ joinWith sep l := by
  cases l with
  | nil => exact absurd rfl h
  | cons y t => rfl

/-- Re-joining the whitespace split with single spaces collapses every
maximal whitespace run to one space. -/
theorem joinWith_splitWSAux (s acc : List Char) :
    joinWith [' '] (splitWSAux s acc) = acc.reverse ++ normalizeWS s := by
  induction s, acc using splitWSAux.induct with
  | case1 acc => simp [splitWSAux, joinWith, normalizeWS]
  | case2 c acc h =>
    simp [splitWSAux, h, joinWith, normalizeWS_cons_of_ws c [] h, List.dropWhile, normalizeWS]
  | case3 c acc h d rest' hd ih =>
    rw [show splitWSAux (c :: d :: rest') acc = splitWSAux (d :: rest') acc by
      simp [splitWSAux, h, hd]]
    rw [ih]
    rw [show normalizeWS (c :: d :: rest') = normalizeWS (d :: rest') by
      simp [normalizeWS, h, hd]]
  | case4 c acc h d rest' hd ih =>
    rw [show splitWSAux (c :: d :: rest') acc = acc.reverse :: splitWSAux rest' [d] by
      simp [splitWSAux, h, hd]]
    rw [joinWith_cons_of_ne_nil _ _ _ (splitWSAux_ne_nil rest' [d])]
    rw [ih]
    rw [show normalizeWS (c :: d :: rest') = ' ' :: normalizeWS (d :: rest') by
      simp [normalizeWS, h, hd]]
    rw [normalizeWS_cons_of_not_ws d rest' hd]
    simp
  | case5 c rest acc h ih =>
    rw [splitWSAux_cons_of_not_ws c rest acc h, ih, normalizeWS_cons_of_not_ws c rest h]
    simp

/-- Every field produced by the split is free of whitespace characters
(fields are maximal runs of non-whitespace, possibly empty at the ends). -/
theorem splitWSAux_ws_free (s acc : List Char) (hacc : ∀ x ∈ acc, isWS x = false) :
    ∀ w ∈ splitWSAux s acc, ∀ x ∈ w, isWS x = false := by
  induction s, acc using splitWSAux.induct with
  | case1 acc =>
    intro w hw x hx
    simp only [splitWSAux, List.mem_singleton] at hw
    exact hacc x (by simpa [hw, List.mem_reverse] using hx)
  | case2 c acc h =>
    intro w hw x hx
    simp only [splitWSAux, h, if_pos] at hw
    rcases List.mem_pair.mp hw with h1 | h1
    · exact hacc x (by simpa [h1, List.mem_reverse] using hx)
    · simp [h1] at hx
  | case3 c acc h d rest' hd ih =>
    rw [show splitWSAux (c :: d :: rest') acc = splitWSAux (d :: rest') acc by
      simp [splitWSAux, h, hd]]
    exact ih hacc
  | case4 c acc h d rest' hd ih =>
    rw [show splitWSAux (c :: d :: rest') acc = acc.reverse :: splitWSAux rest' [d] by
      simp [splitWSAux, h, hd]]
    intro w hw x hx
    rcases List.mem_cons.mp hw with h1 | h1
    · exact hacc x (by simpa [h1, List.mem_reverse] using hx)
    · exact ih (by intro y hy; simp only [List.mem_singleton] at hy
                   simp [hy, Bool.not_eq_true] at hd ⊢; exact hd) w h1 x hx
  | case5 c rest acc h ih =>
    rw [splitWSAux_cons_of_not_ws c rest acc h]
    refine ih ?_
    intro y hy
    rcases List.mem_cons.mp hy with h1 | h1
    · simp [h1, Bool.not_eq_true] at h ⊢; exact h
    · exact hacc y h1

/-- If the string neither starts nor ends with whitespace (and the current
field is non-empty when the string is empty), every field of the split is
non-empty. -/
theorem splitWSAux_fields_ne_nil (s acc : List Char)
    (h1 : acc = [] → ∀ x, s.head? = some x → isWS x = false)
    (h2 : ∀ x, s.getLast? = some x → isWS x = false)
    (h3 : acc = [] → s ≠ []) :
    ∀ w ∈ splitWSAux s acc, w ≠ [] := by
  induction s, acc using splitWSAux.induct with
  | case1 acc =>
    intro w hw
    have hacc : acc ≠ [] := fun he => (h3 he) rfl
    simp only [splitWSAux, List.mem_singleton] at hw
    simpa [hw] using hacc
  | case2 c acc h =>
    exact absurd (h2 c (by simp)) (by simp [h])
  | case3 c acc h d rest' hd ih =>
    have hacc : acc ≠ [] := by
      intro he
      exact absurd (h1 he c (by simp)) (by simp [h])
    rw [show splitWSAux (c :: d :: rest') acc = splitWSAux (d :: rest') acc by
      simp [splitWSAux, h, hd]]
    exact ih (fun he => absurd he hacc) (by simpa [List.getLast?_cons_cons] using h2)
      (fun he => absurd he hacc)
  | case4 c acc h d rest' hd ih =>
    have hacc : acc ≠ [] := by
      intro he
      exact absurd (h1 he c (by simp)) (by simp [h])
    rw [show splitWSAux (c :: d :: rest') acc = acc.reverse :: splitWSAux rest' [d] by
      simp [splitWSAux, h, hd]]
    intro w hw
    rcases List.mem_cons.mp hw with hcase | hcase
    · simpa [hcase] using hacc
    · refine ih (by simp) ?_ (by simp) w hcase
      intro x hx
      cases rest' with
      | nil => simp at hx
      | cons e rest'' =>
        exact h2 x (by simpa [List.getLast?_cons_cons] using hx)
  | case5 c rest acc h ih =>
    rw [splitWSAux_cons_of_not_ws c rest acc h]
    refine ih (by simp) ?_ (by simp)
    intro x hx
    cases rest with
    | nil => simp at hx
    | cons e rest' =>
      exact h2 x (by simpa [List.getLast?_cons_cons] using hx)

/-- The whitespace split of a fully whitespace, non-empty string: two empty
fields (one before and one after the single separator run). -/
theorem jsSplitWhitespace_all_ws (s : List Char) (hne : s ≠ [])
    (hws : ∀ c ∈ s, isWS c = true) : jsSplitWhitespace s = [[], []] := by
  cases s with
  | nil => exact absurd rfl hne
  | cons c rest =>
    unfold jsSplitWhitespace
    rw [splitWSAux_cons_of_ws c rest [] (hws c (by simp))]
    have hd : rest.dropWhile isWS = [] :=
      List.dropWhile_eq_nil_iff.mpr (fun x hx => hws x (List.mem_cons_of_mem c hx))
    simp [hd, splitWSAux]

/-! ### Properties of the chunk grouping -/

/-- Characterization of the grouping worker: the pending group (here
`acc.reverse`, waiting for `k` more elements) absorbs the next `k`
elements, and grouping continues on the rest. -/
theorem chunkGroupsAux_eq (m : Nat) (rest acc : List α) (k : Nat) :
    chunkGroupsAux m rest acc k
      = (acc.reverse ++ rest.take k) :: chunkGroups m (rest.drop k) := by
  induction rest generalizing acc k with
  | nil => simp [chunkGroupsAux, chunkGroups]
  | cons w rest' ih =>
    cases k with
    | zero => simp [chunkGroupsAux, chunkGroups, ih]
    | succ k' => simp [chunkGroupsAux, ih]

/-- `take`/`drop` characterization of the grouping, matching one iteration
of the JS loop: the first `maxWords` words form a chunk and the loop
continues at `i + maxWords`. -/
theorem chunkGroups_cons (m : Nat) (hm : 1 ≤ m) (w : α) (rest : List α) :
    chunkGroups m (w :: rest)
      = (w :: rest).take m :: chunkGroups m ((w :: rest).drop m) := by
  obtain ⟨m', rfl⟩ : ∃ m', m = m' + 1 := ⟨m - 1, by omega⟩
  show chunkGroupsAux (m' + 1) rest [w] m' = _
  rw [chunkGroupsAux_eq]
  simp

/-- Concatenating the groups gives back the word list. -/
theorem chunkGroups_flatten (m : Nat) (hm : 1 ≤ m) :
    ∀ ws : List α, (chunkGroups m ws).flatten = ws
  | [] => by simp [chunkGroups]
  | w :: rest => by
    rw [chunkGroups_cons m hm w rest]
    have hlt : ((w :: rest).drop m).length < (w :: rest).length := by
      simp [List.length_drop]; omega
    simp [chunkGroups_flatten m hm ((w :: rest).drop m)]
termination_by ws => ws.length

/-- Joining a concatenation of two non-empty lists inserts the separator at
the junction. -/
theorem joinWith_append (sep : List Char) (l₁ l₂ : List (List Char))
    (h1 : l₁ ≠ []) (h2 : l₂ ≠ []) :
    joinWith sep (l₁ ++ l₂) = joinWith sep l₁ ++ sep ++ joinWith sep l₂ := by
  induction l₁ with
  | nil => exact absurd rfl h1
  | cons x t ih =>
    cases t with
    | nil => simpa [joinWith] using joinWith_cons_of_ne_nil sep x l₂ h2
    | cons y t' =>
      rw [List.cons_append, joinWith_cons_of_ne_nil sep x _ (by simp),
        ih (by simp), joinWith_cons_of_ne_nil sep x (y :: t') (by simp)]
      simp [List.append_assoc]

/-- Joining the per-group joins equals joining the flattened word list, as
long as no group is empty (grouping then joining each group first does not
change an `Array.join`). -/
theorem joinWith_map_flatten (sep : List Char) (gs : List (List (List Char)))
    (hne : ∀ g ∈ gs, g ≠ []) :
    joinWith sep (gs.map (joinWith sep)) = joinWith sep gs.flatten := by
  induction gs with
  | nil => simp [joinWith]
  | cons g gs' ih =>
    cases gs' with
    | nil => simp [joinWith]
    | cons g' t =>
      have hg : g ≠ [] := hne g (by simp)
      have hflat : g' ++ t.flatten ≠ [] := by
        have hg' : g' ≠ [] := hne g' (by simp)
        intro hcontra
        exact hg' (List.append_eq_nil.mp hcontra).1
      rw [List.map_cons, joinWith_cons_of_ne_nil sep _ _ (by simp),
        ih (fun x hx => hne x (List.mem_cons_of_mem g hx))]
      rw [show (g :: g' :: t).flatten = g ++ (g' ++ t.flatten) by simp]
      rw [joinWith_append sep g _ hg hflat]
      simp

/-- Every group is non-empty and draws its elements from the word list. -/
theorem chunkGroups_mem (m : Nat) (hm : 1 ≤ m) :
    ∀ ws : List α, ∀ g ∈ chunkGroups m ws, g ≠ [] ∧ ∀ x ∈ g, x ∈ ws
  | [] => by simp [chunkGroups]
  | w :: rest => by
    intro g hg
    rw [chunkGroups_cons m hm w rest] at hg
    rcases List.mem_cons.mp hg with hcase | hcase
    · subst hcase
      constructor
      · obtain ⟨m', rfl⟩ : ∃ m', m = m' + 1 := ⟨m - 1, by omega⟩
        simp
      · exact fun x hx => List.take_subset m (w :: rest) hx
    · have hlt : ((w :: rest).drop m).length < (w :: rest).length := by
        simp [List.length_drop]; omega
      obtain ⟨hne, hsub⟩ := chunkGroups_mem m hm ((w :: rest).drop m) g hcase
      exact ⟨hne, fun x hx => List.drop_subset m (w :: rest) (hsub x hx)⟩
termination_by ws => ws.length

/-- `chunkGroups` produces no groups only on the empty word list. -/
theorem chunkGroups_eq_nil_iff (m : Nat) (hm : 1 ≤ m) (ws : List α) :
    chunkGroups m ws = [] ↔ ws = [] := by
  cases ws with
  | nil => simp [chunkGroups]
  | cons w rest => rw [chunkGroups_cons m hm w rest]; simp

/-- Sizes of the groups: every group except the last has exactly `m`
elements, and the last has between `1` and `m`. -/
theorem chunkGroups_sizes (m : Nat) (hm : 1 ≤ m) :
    ∀ (ws : List α) (i : Nat) (g : List α), (chunkGroups m ws)[i]? = some g →
      (i + 1 < (chunkGroups m ws).length → g.length = m) ∧
      (i + 1 = (chunkGroups m ws).length → 1 ≤ g.length ∧ g.length ≤ m)
  | [] => by simp [chunkGroups]
  | w :: rest => by
    intro i g hg
    rw [chunkGroups_cons m hm w rest] at hg
    rw [chunkGroups_cons m hm w rest]
    cases i with
    | zero =>
      simp only [List.getElem?_cons_zero, Option.some.injEq] at hg
      subst hg
      by_cases hdrop : (w :: rest).drop m = []
      · constructor
        · intro hlt
          rw [hdrop] at hlt
          simp [chunkGroups] at hlt
        · intro _
          have hlen : (w :: rest).length ≤ m := by
            have := List.drop_eq_nil_iff.mp hdrop
            omega
          constructor
          · simp only [List.length_take]
            simp only [List.length_cons]
            omega
          · simp only [List.length_take]
            omega
      · have hlong : m < (w :: rest).length := by
          by_contra hcon
          exact hdrop (List.drop_eq_nil_iff.mpr (by omega))
        constructor
        · intro _
          simp only [List.length_take]
          omega
        · intro heq
          exfalso
          have : chunkGroups m ((w :: rest).drop m) ≠ [] := by
            exact fun hcon => hdrop ((chunkGroups_eq_nil_iff m hm _).mp hcon)
          have hpos : 1 ≤ (chunkGroups m ((w :: rest).drop m)).length :=
            List.length_pos.mpr this
          simp only [List.length_cons] at heq
          omega
    | succ i' =>
      simp only [List.getElem?_cons_succ] at hg
      have hlt : ((w :: rest).drop m).length < (w :: rest).length := by
        simp [List.length_drop]; omega
      obtain ⟨h1, h2⟩ := chunkGroups_sizes m hm ((w :: rest).drop m) i' g hg
      constructor
      · intro hbound
        exact h1 (by simpa using Nat.lt_of_succ_lt_succ hbound)
      · intro heq
        refine h2 ?_
        simp only [List.length_cons] at heq
        omega
termination_by ws => ws.length

/-- Appending a whitespace-free word to the input extends the field the
scanner is collecting. -/
theorem splitWSAux_append_of_ws_free (w : List Char)
    (hw : ∀ x ∈ w, isWS x = false) (s acc : List Char) :
    splitWSAux (w ++ s) acc = splitWSAux s (w.reverse ++ acc) := by
  induction w generalizing acc with
  | nil => simp
  | cons x w' ih =>
    have hx : ¬ isWS x = true := by simp [hw x (by simp)]
    rw [List.cons_append, splitWSAux_cons_of_not_ws x (w' ++ s) acc hx,
      ih (fun y hy => hw y (List.mem_cons_of_mem x hy))]
    simp

/-- Splitting a single-space join of non-empty whitespace-free words
recovers exactly those words. -/
theorem jsSplitWhitespace_joinWith (g : List (List Char)) (hne : g ≠ [])
    (hnn : ∀ w ∈ g, w ≠ []) (hwf : ∀ w ∈ g, ∀ x ∈ w, isWS x = false) :
    jsSplitWhitespace (joinWith [' '] g) = g := by
  induction g with
  | nil => exact absurd rfl hne
  | cons w g' ih =>
    cases g' with
    | nil =>
      have h := splitWSAux_append_of_ws_free w (hwf w (by simp)) [] []
      simp only [List.append_nil] at h
      show splitWSAux w [] = [w]
      rw [h]
      simp [splitWSAux]
    | cons v t =>
      rw [joinWith_cons_of_ne_nil [' '] w (v :: t) (by simp)]
      show splitWSAux ((w ++ [' ']) ++ joinWith [' '] (v :: t)) [] = _
      rw [List.append_assoc, splitWSAux_append_of_ws_free w (hwf w (by simp))]
      rw [show ([' '] ++ joinWith [' '] (v :: t) : List Char)
            = ' ' :: joinWith [' '] (v :: t) from rfl]
      rw [splitWSAux_cons_of_ws ' ' _ _ (by decide)]
      obtain ⟨x, v', hv⟩ : ∃ x v', v = x :: v' := by
        cases hv : v with
        | nil => exact absurd hv (hnn v (by simp))
        | cons x v' => exact ⟨x, v', rfl⟩
      have hxw : isWS x = false := hwf v (by simp) x (by simp [hv])
      have hjoin : ∃ tail, joinWith [' '] (v :: t) = x :: tail := by
        cases t with
        | nil => exact ⟨v', by simp [joinWith, hv]⟩
        | cons u t' => exact ⟨v' ++ [' '] ++ joinWith [' '] (u :: t'), by
            rw [joinWith_cons_of_ne_nil [' '] v (u :: t') (by simp), hv]
            simp⟩
      obtain ⟨tail, htail⟩ := hjoin
      rw [htail]
      rw [show (x :: tail).dropWhile isWS = x :: tail by
        rw [List.dropWhile_cons, if_neg (by simp [hxw])]]
      rw [← htail]
      have := ih (by simp) (fun u hu => hnn u (List.mem_cons_of_mem w hu))
        (fun u hu => hwf u (List.mem_cons_of_mem w hu))
      rw [show splitWSAux (joinWith [' '] (v :: t)) [] = jsSplitWhitespace (joinWith [' '] (v :: t)) from rfl,
        this]
      simp

/-- The word count of a single-space join of non-empty whitespace-free
words is the number of words. -/
theorem countWords_joinWith (g : List (List Char)) (hne : g ≠ [])
    (hnn : ∀ w ∈ g, w ≠ []) (hwf : ∀ w ∈ g, ∀ x ∈ w, isWS x = false) :
    countWords (joinWith [' '] g) = g.length := by
  unfold countWords
  rw [jsSplitWhitespace_joinWith g hne hnn hwf]
  rw [List.filter_eq_self.mpr (by intro w hw; simpa using hnn w hw)]

/-- The splitter never returns an empty chunk list: even the empty text
yields one chunk, because JS `"".split(/\s+/)` is `[""]`. -/
theorem splitIntoChunks_ne_nil (text : List Char) (m : Nat) (hm : 1 ≤ m) :
    splitIntoChunks text m ≠ [] := by
  unfold splitIntoChunks
  cases hws : jsSplitWhitespace text with
  | nil => exact absurd hws (splitWSAux_ne_nil text [])
  | cons w rest =>
    rw [chunkGroups_cons m hm w rest]
    simp

/-! ### Claims C1–C3 -/

/-- Claim C1, as stated, is false on the code: for the empty input text and
`maxWords = 1`, `splitIntoChunks` does not return the empty sequence — it
returns one chunk holding the empty string (JS `"".split(/\s+/)` is `[""]`,
so the grouping loop runs once). -/
theorem c1_counterexample :
    ¬ (splitIntoChunks [] 1 = []) ∧ splitIntoChunks [] 1 = [[]] := by decide

/-- Claim C1 (amended): for empty or whitespace-only text and `maxWords ≥ 1`
the splitter returns a non-empty chunk sequence — one empty chunk for empty
text, two empty chunks for whitespace-only text when `maxWords = 1` and one
single-space chunk otherwise.  Consequently the handler, on a document-cache
and chunk-cache miss over the empty document, performs one external
summarization call (on the empty chunk) and returns that call's output
rather than an empty summary. -/
theorem c1_amended_empty_input (text : List Char) (m : Nat) (hm : 1 ≤ m)
    (hws : ∀ c ∈ text, isWS c = true)
    (st : Store) (f : Nat → List Char → List Char) (req : Req)
    (hmeth : req.method = postMethod) (hp : falsy req.pdfUrl = false)
    (hi : falsy req.issueNumber = false) (ht : isStrOrNum req.issueNumber = true)
    (hdoc : st.doc req.issueNumber = none)
    (hchunk : ∀ j, st.chunk req.issueNumber j = none) :
    (splitIntoChunks text m
        = if text = [] then [[]] else if m = 1 then [[], []] else [[' ']]) ∧
    splitIntoChunks text m ≠ [] ∧
    (text = [] →
      (handlerChunked m st noFaults f text req).calls = [0] ∧
      (handlerChunked m st noFaults f text req).resp = .ok (f 0 [])) := by
  obtain ⟨m', rfl⟩ : ∃ m', m = m' + 1 := ⟨m - 1, by omega⟩
  have hsplit : splitIntoChunks text (m' + 1)
      = if text = [] then [[]] else if m' + 1 = 1 then [[], []] else [[' ']] := by
    by_cases hT : text = []
    · subst hT
      simp only [if_pos rfl]
      show (chunkGroups (m' + 1) (jsSplitWhitespace [])).map (joinWith [' ']) = [[]]
      rw [show jsSplitWhitespace [] = [[]] from rfl]
      rw [chunkGroups_cons (m' + 1) (by omega) [] []]
      simp [chunkGroups, joinWith]
    · rw [if_neg hT]
      show (chunkGroups (m' + 1) (jsSplitWhitespace text)).map (joinWith [' ']) = _
      rw [jsSplitWhitespace_all_ws text hT hws]
      cases m' with
      | zero =>
        rw [if_pos rfl]
        rw [chunkGroups_cons 1 (by omega) [] [[]]]
        simp only [List.take_succ_cons, List.take_zero, List.drop_succ_cons, List.drop_zero]
        rw [chunkGroups_cons 1 (by omega) [] []]
        simp [chunkGroups, joinWith]
      | succ m'' =>
        rw [if_neg (by omega)]
        rw [chunkGroups_cons (m'' + 2) (by omega) [] [[]]]
        simp only [List.take_succ_cons, List.drop_succ_cons]
        simp [chunkGroups, joinWith]
  refine ⟨hsplit, ?_, ?_⟩
  · exact splitIntoChunks_ne_nil text (m' + 1) (by omega)
  · intro hT
    subst hT
    have hchunks : splitIntoChunks [] (m' + 1) = [[]] := by simpa using hsplit
    simp [handlerChunked, handlerChunkedBody, hmeth, hp, hi, ht, hdoc, noFaults,
      hchunks, chunkLoop, hchunk, putChunk, assemble, sortByIndex, insertByIdx,
      joinWith]

/-- Claim C2, as stated, is false on the code: for the input `" a b"`
(leading whitespace) and `maxWords = 1`, the split produces the three
chunks `["", "a", "b"]`, and the first chunk — which is not the last —
contains zero whitespace-separated words instead of exactly one (the JS
split emits a leading empty word before leading whitespace). -/
theorem c2_counterexample :
    (splitIntoChunks [' ', 'a', ' ', 'b'] 1).length = 3 ∧
    (splitIntoChunks [' ', 'a', ' ', 'b'] 1)[0]? = some [] ∧
    countWords [] = 0 := by decide

/-- Claim C2 (amended): for non-empty input text that neither starts nor
ends with a whitespace character and `maxWords ≥ 1`, every chunk except
possibly the last contains exactly `maxWords` whitespace-separated words,
and the last chunk contains between 1 and `maxWords` words. -/
theorem c2_amended_chunk_word_counts (text : List Char) (m : Nat) (hm : 1 ≤ m)
    (hne : text ≠ [])
    (hhead : ∀ x, text.head? = some x → isWS x = false)
    (hlast : ∀ x, text.getLast? = some x → isWS x = false) :
    (∀ (i : Nat) (c : List Char), (splitIntoChunks text m)[i]? = some c →
        i + 1 < (splitIntoChunks text m).length → countWords c = m) ∧
    (∀ c : List Char, (splitIntoChunks text m).getLast? = some c →
        1 ≤ countWords c ∧ countWords c ≤ m) := by
  have hwf : ∀ w ∈ jsSplitWhitespace text, ∀ x ∈ w, isWS x = false :=
    splitWSAux_ws_free text [] (by simp)
  have hnn : ∀ w ∈ jsSplitWhitespace text, w ≠ [] :=
    splitWSAux_fields_ne_nil text [] (fun _ => hhead) hlast (fun _ => hne)
  have key : ∀ (i : Nat) (c : List Char), (splitIntoChunks text m)[i]? = some c →
      ∃ g, (chunkGroups m (jsSplitWhitespace text))[i]? = some g ∧
        countWords c = g.length := by
    intro i c hc
    unfold splitIntoChunks at hc
    rw [List.getElem?_map] at hc
    cases hg : (chunkGroups m (jsSplitWhitespace text))[i]? with
    | none => rw [hg] at hc; simp at hc
    | some g =>
      rw [hg] at hc
      have hcg : c = joinWith [' '] g := by
        simpa using hc.symm
      have hmem : g ∈ chunkGroups m (jsSplitWhitespace text) :=
        List.getElem?_mem hg
      obtain ⟨gne, gsub⟩ := chunkGroups_mem m hm _ g hmem
      refine ⟨g, rfl, ?_⟩
      rw [hcg]
      exact countWords_joinWith g gne (fun w hw => hnn w (gsub w hw))
        (fun w hw => hwf w (gsub w hw))
  have hlen : (splitIntoChunks text m).length
      = (chunkGroups m (jsSplitWhitespace text)).length := by
    unfold splitIntoChunks; simp
  constructor
  · intro i c hc hbound
    obtain ⟨g, hg, hcount⟩ := key i c hc
    rw [hcount]
    exact (chunkGroups_sizes m hm _ i g hg).1 (by rwa [hlen] at hbound)
  · intro c hcLast
    have hlen0 : splitIntoChunks text m ≠ [] := splitIntoChunks_ne_nil text m hm
    rw [List.getLast?_eq_getElem?] at hcLast
    obtain ⟨g, hg, hcount⟩ := key _ c hcLast
    rw [hcount]
    refine (chunkGroups_sizes m hm _ _ g hg).2 ?_
    have hpos : 1 ≤ (splitIntoChunks text m).length := List.length_pos.mpr hlen0
    omega

/-- Claim C3: joining all chunks with single spaces reconstructs the
whitespace-normalized input (each maximal whitespace run collapsed to one
space), for every text and every `maxWords ≥ 1`. -/
theorem c3_split_rejoin_normalizes (text : List Char) (m : Nat) (hm : 1 ≤ m) :
    joinWith [' '] (splitIntoChunks text m) = normalizeWS text := by
  unfold splitIntoChunks
  rw [joinWith_map_flatten [' '] _ (fun g hg => (chunkGroups_mem m hm _ g hg).1),
    chunkGroups_flatten m hm]
  simpa using joinWith_splitWSAux text []

/-- Witness for claim C3 at a concrete input. -/
theorem c3_witness :
    1 ≤ 2 ∧ joinWith [' '] (splitIntoChunks [' ', 'a', ' ', ' ', 'b', '\t', 'c'] 2)
      = normalizeWS [' ', 'a', ' ', ' ', 'b', '\t', 'c'] :=
  ⟨by decide, c3_split_rejoin_normalizes [' ', 'a', ' ', ' ', 'b', '\t', 'c'] 2 (by decide)⟩

/-! ### Properties of the index sort and the assembly -/

/-- Insertion produces a permutation of consing. -/
theorem insertByIdx_perm (x : Nat × List Char) (l : List (Nat × List Char)) :
    (insertByIdx x l).Perm (x :: l) := by
  induction l with
  | nil => simp [insertByIdx]
  | cons y ys ih =>
    simp only [insertByIdx]
    by_cases hc : y.1 ≤ x.1
    · rw [if_pos hc]
      exact (List.Perm.cons y ih).trans (List.Perm.swap x y ys)
    · rw [if_neg hc]

/-- `sortByIndex` permutes its input. -/
theorem sortByIndex_perm (l : List (Nat × List Char)) : (sortByIndex l).Perm l := by
  induction l with
  | nil => simp [sortByIndex]
  | cons x xs ih =>
    exact (insertByIdx_perm x (sortByIndex xs)).trans (List.Perm.cons x ih)

/-- Insertion preserves sortedness by index. -/
theorem insertByIdx_sorted (x : Nat × List Char) (l : List (Nat × List Char))
    (h : l.Sorted (fun a b => a.1 ≤ b.1)) :
    (insertByIdx x l).Sorted (fun a b => a.1 ≤ b.1) := by
  induction l with
  | nil => simp [insertByIdx]
  | cons y ys ih =>
    rw [List.sorted_cons] at h
    obtain ⟨hy, hys⟩ := h
    simp only [insertByIdx]
    by_cases hc : y.1 ≤ x.1
    · rw [if_pos hc, List.sorted_cons]
      refine ⟨?_, ih hys⟩
      intro b hb
      rcases List.mem_cons.mp ((insertByIdx_perm x ys).mem_iff.mp hb) with hb' | hb'
      · subst hb'; exact hc
      · exact hy b hb'
    · rw [if_neg hc, List.sorted_cons]
      refine ⟨?_, by rw [List.sorted_cons]; exact ⟨hy, hys⟩⟩
      intro b hb
      rcases List.mem_cons.mp hb with hb' | hb'
      · subst hb'; omega
      · have := hy b hb'; omega

/-- `sortByIndex` sorts by index. -/
theorem sortByIndex_sorted (l : List (Nat × List Char)) :
    (sortByIndex l).Sorted (fun a b => a.1 ≤ b.1) := by
  induction l with
  | nil => simp [sortByIndex]
  | cons x xs ih => exact insertByIdx_sorted x (sortByIndex xs) ih

/-- With pairwise-distinct indices, the sorted order is determined by the
multiset of entries: permuted inputs sort identically. -/
theorem sortByIndex_eq_of_perm (cs cs' : List (Nat × List Char)) (hperm : cs.Perm cs')
    (hnodup : (cs.map Prod.fst).Nodup) : sortByIndex cs = sortByIndex cs' := by
  haveI : IsAntisymm (Nat × List Char) (fun a b => a.1 < b.1) :=
    ⟨fun a b h1 h2 => absurd h2 (by omega)⟩
  have hstrict : ∀ l : List (Nat × List Char), (l.map Prod.fst).Nodup →
      (sortByIndex l).Sorted (fun a b => a.1 < b.1) := by
    intro l hnd
    have hs := sortByIndex_sorted l
    have hnd' : ((sortByIndex l).map Prod.fst).Nodup :=
      (((sortByIndex_perm l).map Prod.fst).nodup_iff).mpr hnd
    have hpw : (sortByIndex l).Pairwise (fun a b => a.1 ≠ b.1) :=
      List.pairwise_map.mp hnd'
    exact (hs.and hpw).imp (fun hab => Nat.lt_of_le_of_ne hab.1 hab.2)
  have hnodup' : (cs'.map Prod.fst).Nodup :=
    ((hperm.map Prod.fst).nodup_iff).mp hnodup
  exact List.eq_of_perm_of_sorted
    ((sortByIndex_perm cs).trans (hperm.trans (sortByIndex_perm cs').symm))
    (hstrict cs hnodup) (hstrict cs' hnodup')

/-- A list already strictly ascending by index is left unchanged by the
defensive sort. -/
theorem sortByIndex_of_pairwise_lt (l : List (Nat × List Char))
    (h : l.Pairwise (fun a b => a.1 < b.1)) : sortByIndex l = l := by
  induction l with
  | nil => rfl
  | cons x xs ih =>
    rw [List.pairwise_cons] at h
    obtain ⟨hx, hxs⟩ := h
    simp only [sortByIndex]
    rw [ih hxs]
    cases xs with
    | nil => rfl
    | cons y ys =>
      simp only [insertByIdx]
      rw [if_neg (by have := hx y (by simp); omega)]

/-! ### Handler-level helper lemmas -/

/-- A document-cache hit with a non-empty summary short-circuits the whole
chunked handler: the cached summary is returned unchanged after a single
document-cache read, with no fetch, no split, no chunk-cache read, no
summarizer call and no store mutation. -/
theorem handlerChunked_cache_hit (m : Nat) (st : Store) (faults : Faults)
    (f : Nat → List Char → List Char) (text : List Char) (req : Req) (s : List Char)
    (hmeth : req.method = postMethod) (hp : falsy req.pdfUrl = false)
    (hi : falsy req.issueNumber = false) (ht : isStrOrNum req.issueNumber = true)
    (hnf : faults.docFindFails = false)
    (hdoc : st.doc req.issueNumber = some s) (hs : s ≠ []) :
    handlerChunked m st faults f text req = ⟨.ok s, st, [], 1, [], false, false⟩ := by
  have hse : s.isEmpty = false := by
    cases s with
    | nil => exact absurd rfl hs
    | cons _ _ => rfl
  simp [handlerChunked, hmeth, hp, hi, ht, hnf, hdoc, hse]

/-- Whenever a chunked-handler run responds 200 with a summary, that
summary is in the document cache of the resulting store (it either came
from there or was just written through). -/
theorem handlerChunked_ok_doc (m : Nat) (st : Store) (faults : Faults)
    (f : Nat → List Char → List Char) (text : List Char) (req : Req) (s : List Char)
    (h : (handlerChunked m st faults f text req).resp = .ok s) :
    (handlerChunked m st faults f text req).store.doc req.issueNumber = some s := by
  unfold handlerChunked handlerChunkedBody at h ⊢
  revert h
  split
  · intro h; simp at h
  split
  · intro h; simp at h
  split
  · intro h; simp at h
  split
  · intro h; simp at h
  split
  next s' heq =>
    split
    · -- cached record with an empty summary: fall through to the body
      split
      · intro h; simp at h
      split
      · intro h; simp at h
      next st' rs cs sums hloop =>
        intro h
        simp only [RunResult.store, RunResult.resp] at h ⊢
        simp [putDoc, ← (Resp.ok.injEq _ _).mp h]
    · -- cache hit
      intro h
      simp only [RunResult.store, RunResult.resp] at h ⊢
      rw [heq, (Resp.ok.injEq _ _).mp h]
  next heq =>
    split
    · intro h; simp at h
    split
    · intro h; simp at h
    next st' rs cs sums hloop =>
      intro h
      simp only [RunResult.store, RunResult.resp] at h ⊢
      simp [putDoc, ← (Resp.ok.injEq _ _).mp h]

/-! ### Claims C4, C6, C8, C10 -/

/-- Claim C4, as stated, is false on the code in its "in particular" part:
with a summarizer that returns empty text, a first call on a one-chunk
document succeeds (HTTP 200) and caches the empty summary, but the cached
empty string is falsy, so the second sequential identical call misses the
document cache and performs an external summarization call. -/
theorem c4_counterexample :
    (handlerChunked 1 ⟨fun _ => none, fun _ _ => none⟩ noFaults (fun _ _ => [])
        ['x'] ⟨postMethod, .str ['u'], .str ['n']⟩).resp = .ok [] ∧
    (handlerChunked 1
        (handlerChunked 1 ⟨fun _ => none, fun _ _ => none⟩ noFaults (fun _ _ => [])
          ['x'] ⟨postMethod, .str ['u'], .str ['n']⟩).store
        noFaults (fun _ _ => []) ['x'] ⟨postMethod, .str ['u'], .str ['n']⟩).calls
      = [0] := by decide

/-- Claim C4 (amended): a document-cache record with a non-empty summary
short-circuits the request — the cached summary is returned unchanged with
zero summarizer invocations, zero fetches, zero splits and zero chunk-cache
reads; and a second sequential call after a first call that returned a
**non-empty** summary performs zero external summarization calls (the
non-emptiness proviso is forced by the counterexample: an empty cached
summary is treated as a miss). -/
theorem c4_amended_cache_short_circuit (m : Nat) (st : Store) (faults : Faults)
    (f : Nat → List Char → List Char) (text : List Char) (req : Req) (s : List Char)
    (hmeth : req.method = postMethod) (hp : falsy req.pdfUrl = false)
    (hi : falsy req.issueNumber = false) (ht : isStrOrNum req.issueNumber = true) :
    (faults.docFindFails = false → st.doc req.issueNumber = some s → s ≠ [] →
      handlerChunked m st faults f text req = ⟨.ok s, st, [], 1, [], false, false⟩) ∧
    ((handlerChunked m st faults f text req).resp = .ok s → s ≠ [] →
      handlerChunked m (handlerChunked m st faults f text req).store noFaults f text req
        = ⟨.ok s, (handlerChunked m st faults f text req).store, [], 1, [], false, false⟩) := by
  constructor
  · intro hnf hdoc hs
    exact handlerChunked_cache_hit m st faults f text req s hmeth hp hi ht hnf hdoc hs
  · intro hok hs
    exact handlerChunked_cache_hit m _ noFaults f text req s hmeth hp hi ht rfl
      (handlerChunked_ok_doc m st faults f text req s hok) hs

/-- Witness for claim C4 at a concrete populated cache. -/
theorem c4_witness :
    handlerChunked 1 ⟨fun j => if j = .str ['n'] then some ['S'] else none, fun _ _ => none⟩
        noFaults (fun _ _ => ['T']) ['x'] ⟨postMethod, .str ['u'], .str ['n']⟩
      = ⟨.ok ['S'], ⟨fun j => if j = .str ['n'] then some ['S'] else none, fun _ _ => none⟩,
          [], 1, [], false, false⟩ :=
  (c4_amended_cache_short_circuit 1
      ⟨fun j => if j = .str ['n'] then some ['S'] else none, fun _ _ => none⟩
      noFaults (fun _ _ => ['T']) ['x'] ⟨postMethod, .str ['u'], .str ['n']⟩ ['S']
      rfl rfl rfl rfl).1 rfl (by decide) (by decide)

/-- Claim C6: the assembled document summary is the chunk-summary texts
joined with `"\n\n"` in ascending index order, independently of the order
in which the `(index, content)` pairs were produced (for pairwise-distinct
indices); in particular `"A"`, `"B"`, `"C"` at indices 0, 1, 2 assemble to
`"A\n\nB\n\nC"`. -/
theorem c6_assemble_order_by_index :
    (∀ cs cs' : List (Nat × List Char), cs.Perm cs' → (cs.map Prod.fst).Nodup →
      assemble cs = assemble cs') ∧
    assemble [(0, ['A']), (1, ['B']), (2, ['C'])]
      = ['A', '\n', '\n', 'B', '\n', '\n', 'C'] := by
  constructor
  · intro cs cs' hperm hnodup
    unfold assemble
    rw [sortByIndex_eq_of_perm cs cs' hperm hnodup]
  · decide

/-- Witness for claim C6: a permuted (arrival-order) list assembles to the
same summary as the index-ordered list. -/
theorem c6_witness :
    assemble [(1, ['B']), (2, ['C']), (0, ['A'])]
      = assemble [(0, ['A']), (1, ['B']), (2, ['C'])] :=
  c6_assemble_order_by_index.1 [(1, ['B']), (2, ['C']), (0, ['A'])]
    [(0, ['A']), (1, ['B']), (2, ['C'])] (by decide) (by decide)

/-- Claim C8, as stated, is false on the code: a document-cache read
failure is not treated as a cache miss — the outer `catch` turns it into
the 500 `"Failed to summarize PDF"` response, with no fetch, no split and
no summarization, so the request does not complete with a fresh summary. -/
theorem c8_counterexample :
    (handlerChunked 1 ⟨fun _ => none, fun _ _ => none⟩
        ⟨true, false, fun _ => false, fun _ => false⟩ (fun _ _ => ['S']) ['x']
        ⟨postMethod, .str ['u'], .str ['n']⟩).resp = .serverError ∧
    (handlerChunked 1 ⟨fun _ => none, fun _ _ => none⟩
        ⟨true, false, fun _ => false, fun _ => false⟩ (fun _ _ => ['S']) ['x']
        ⟨postMethod, .str ['u'], .str ['n']⟩).calls = [] := by decide

/-- Claim C8 (amended): a failing cache read aborts the request with the
500 error instead of falling through to recomputation — a document-cache
read failure yields the 500 response with no summarizer call, no fetch and
no split, and a chunk-cache read failure on the first chunk yields the 500
response with no summarizer call. -/
theorem c8_amended_cache_read_failure_fails_request (m : Nat) (st : Store)
    (faults : Faults) (f : Nat → List Char → List Char) (text : List Char) (req : Req)
    (hm : 1 ≤ m) (hmeth : req.method = postMethod) (hp : falsy req.pdfUrl = false)
    (hi : falsy req.issueNumber = false) (ht : isStrOrNum req.issueNumber = true) :
    (faults.docFindFails = true →
      handlerChunked m st faults f text req = ⟨.serverError, st, [], 1, [], false, false⟩) ∧
    (faults.docFindFails = false → faults.fetchFails = false →
      faults.chunkFindFails 0 = true → st.doc req.issueNumber = none →
      (handlerChunked m st faults f text req).resp = .serverError ∧
      (handlerChunked m st faults f text req).calls = []) := by
  constructor
  · intro hdf
    simp [handlerChunked, hmeth, hp, hi, ht, hdf]
  · intro hdf hff hcf hdoc
    cases hchunks : splitIntoChunks text m with
    | nil => exact absurd hchunks (splitIntoChunks_ne_nil text m hm)
    | cons c rest =>
      constructor <;>
        simp [handlerChunked, handlerChunkedBody, hmeth, hp, hi, ht, hdf, hff,
          hdoc, hchunks, chunkLoop, hcf]

/-- Witness for claim C8 at a concrete failing chunk-cache read. -/
theorem c8_witness :
    (handlerChunked 1 ⟨fun _ => none, fun _ _ => none⟩
        ⟨false, false, fun _ => true, fun _ => false⟩ (fun _ _ => ['S']) ['x']
        ⟨postMethod, .str ['u'], .str ['n']⟩).resp = .serverError ∧
    (handlerChunked 1 ⟨fun _ => none, fun _ _ => none⟩
        ⟨false, false, fun _ => true, fun _ => false⟩ (fun _ _ => ['S']) ['x']
        ⟨postMethod, .str ['u'], .str ['n']⟩).calls = [] :=
  (c8_amended_cache_read_failure_fails_request 1 ⟨fun _ => none, fun _ _ => none⟩
      ⟨false, false, fun _ => true, fun _ => false⟩ (fun _ _ => ['S']) ['x']
      ⟨postMethod, .str ['u'], .str ['n']⟩ (by decide) rfl rfl rfl rfl).2
    rfl rfl rfl rfl

/-- Claim C10: a POST request whose `pdfUrl` or `issueNumber` is falsy —
including the number `0` and the empty string — is rejected with the 400
`"Missing PDF URL or Issue Number"` response before any cache read, fetch,
split or summarizer call, in both the chunked and the streaming handler;
a document with identity `0` can therefore never be summarized. -/
theorem c10_falsy_identity_rejected (m : Nat) (st : Store) (faults : Faults)
    (f : Nat → List Char → List Char) (text : List Char) (req : Req)
    (hmeth : req.method = postMethod)
    (hfalsy : falsy req.pdfUrl = true ∨ falsy req.issueNumber = true) :
    handlerChunked m st faults f text req = ⟨.badRequest, st, [], 0, [], false, false⟩ ∧
    handlerStreaming m st faults f text req = ⟨.badRequest, st, [], []⟩ := by
  rcases hfalsy with hcase | hcase <;>
    exact ⟨by simp [handlerChunked, hmeth, hcase],
           by simp [handlerStreaming, hmeth, hcase]⟩

/-- Witness for claim C10 at the numeric identity `0`. -/
theorem c10_witness :
    handlerChunked 1 ⟨fun _ => none, fun _ _ => none⟩ noFaults (fun _ _ => ['S'])
        ['x'] ⟨postMethod, .str ['u'], .num 0⟩
      = ⟨.badRequest, ⟨fun _ => none, fun _ _ => none⟩, [], 0, [], false, false⟩ ∧
    handlerStreaming 1 ⟨fun _ => none, fun _ _ => none⟩ noFaults (fun _ _ => ['S'])
        ['x'] ⟨postMethod, .str ['u'], .num 0⟩
      = ⟨.badRequest, ⟨fun _ => none, fun _ _ => none⟩, [], []⟩ :=
  c10_falsy_identity_rejected 1 ⟨fun _ => none, fun _ _ => none⟩ noFaults
    (fun _ _ => ['S']) ['x'] ⟨postMethod, .str ['u'], .num 0⟩ rfl (Or.inr (by decide))

/-! ### Claims C5 and C7 -/

/-- A fault environment in which exactly the external summarization call on
chunk `k` fails (the scenario of claims C5's dual and C7). -/
def sumFailsAt (k : Nat) : Faults :=
  { docFindFails := false, fetchFails := false,
    chunkFindFails := fun _ => false, sumFails := fun j => j == k }

/-- Claim C5: on a five-chunk document with only chunk 2 cached (with a
non-empty summary) and an empty document cache, the handler invokes the
external summarizer exactly for chunks 0, 1, 3 and 4, and responds with the
assembly, in index order, of the cached chunk-2 summary and the four newly
computed summaries. -/
theorem c5_partial_chunk_cache_reuse (m : Nat) (st : Store)
    (f : Nat → List Char → List Char) (text : List Char) (req : Req)
    (c0 c1 c2 c3 c4 s2 : List Char)
    (hmeth : req.method = postMethod) (hp : falsy req.pdfUrl = false)
    (hi : falsy req.issueNumber = false) (ht : isStrOrNum req.issueNumber = true)
    (hsplit : splitIntoChunks text m = [c0, c1, c2, c3, c4])
    (hdoc : st.doc req.issueNumber = none)
    (h0 : st.chunk req.issueNumber 0 = none) (h1 : st.chunk req.issueNumber 1 = none)
    (h2 : st.chunk req.issueNumber 2 = some s2) (hs2 : s2 ≠ [])
    (h3 : st.chunk req.issueNumber 3 = none) (h4 : st.chunk req.issueNumber 4 = none) :
    (handlerChunked m st noFaults f text req).calls = [0, 1, 3, 4] ∧
    (handlerChunked m st noFaults f text req).resp
      = .ok (assemble [(0, f 0 c0), (1, f 1 c1), (2, s2), (3, f 3 c3), (4, f 4 c4)]) := by
  have hs2e : s2.isEmpty = false := by
    cases s2 with
    | nil => exact absurd rfl hs2
    | cons _ _ => rfl
  constructor <;>
    simp [handlerChunked, handlerChunkedBody, hmeth, hp, hi, ht, hdoc, noFaults,
      hsplit, chunkLoop, h0, h1, h2, h3, h4, putChunk, hs2e]

/-- Claim C7, as stated, is false on the code in its retry part: with a
summarizer that returns empty text, the first run on a five-chunk document
(split with `maxWords = 1`) fails on chunk 3 and durably caches empty
summaries for chunks 0–2; on the retry those cached empty strings are falsy,
so the handler re-invokes the summarizer for chunks 0, 1 and 2 as well —
not only for chunks 3 and 4. -/
theorem c7_counterexample :
    (handlerChunked 1 ⟨fun _ => none, fun _ _ => none⟩ (sumFailsAt 3) (fun _ _ => [])
        ['a', ' ', 'b', ' ', 'c', ' ', 'd', ' ', 'e']
        ⟨postMethod, .str ['u'], .str ['n']⟩).resp = .serverError ∧
    (handlerChunked 1
        (handlerChunked 1 ⟨fun _ => none, fun _ _ => none⟩ (sumFailsAt 3) (fun _ _ => [])
          ['a', ' ', 'b', ' ', 'c', ' ', 'd', ' ', 'e']
          ⟨postMethod, .str ['u'], .str ['n']⟩).store
        noFaults (fun _ _ => []) ['a', ' ', 'b', ' ', 'c', ' ', 'd', ' ', 'e']
        ⟨postMethod, .str ['u'], .str ['n']⟩).calls = [0, 1, 2, 3, 4] := by decide

/-- Claim C7 (amended): on a five-chunk document with nothing cached, a
summarizer failure on chunk 3 terminates the request with the 500 error;
chunks 0–2 remain durably cached, the chunk cache holds nothing for chunks
3 and 4, and the document cache receives no entry.  Provided the summarizer
returned non-empty summaries (the proviso forced by the counterexample), a
subsequent identical request invokes the summarizer only for chunks 3 and 4
and responds with the assembly of all five summaries in index order. -/
theorem c7_amended_resume_after_failure (m : Nat) (st : Store)
    (f : Nat → List Char → List Char) (text : List Char) (req : Req)
    (c0 c1 c2 c3 c4 : List Char)
    (hmeth : req.method = postMethod) (hp : falsy req.pdfUrl = false)
    (hi : falsy req.issueNumber = false) (ht : isStrOrNum req.issueNumber = true)
    (hsplit : splitIntoChunks text m = [c0, c1, c2, c3, c4])
    (hdoc : st.doc req.issueNumber = none)
    (hchunk : ∀ j, st.chunk req.issueNumber j = none)
    (hf : ∀ i c, f i c ≠ []) :
    (handlerChunked m st (sumFailsAt 3) f text req).resp = .serverError ∧
    (handlerChunked m st (sumFailsAt 3) f text req).calls = [0, 1, 2, 3] ∧
    (handlerChunked m st (sumFailsAt 3) f text req).store.chunk req.issueNumber 0
      = some (f 0 c0) ∧
    (handlerChunked m st (sumFailsAt 3) f text req).store.chunk req.issueNumber 1
      = some (f 1 c1) ∧
    (handlerChunked m st (sumFailsAt 3) f text req).store.chunk req.issueNumber 2
      = some (f 2 c2) ∧
    (handlerChunked m st (sumFailsAt 3) f text req).store.chunk req.issueNumber 3
      = none ∧
    (handlerChunked m st (sumFailsAt 3) f text req).store.chunk req.issueNumber 4
      = none ∧
    (handlerChunked m st (sumFailsAt 3) f text req).store.doc req.issueNumber = none ∧
    (handlerChunked m (handlerChunked m st (sumFailsAt 3) f text req).store
        noFaults f text req).calls = [3, 4] ∧
    (handlerChunked m (handlerChunked m st (sumFailsAt 3) f text req).store
        noFaults f text req).resp
      = .ok (assemble [(0, f 0 c0), (1, f 1 c1), (2, f 2 c2), (3, f 3 c3), (4, f 4 c4)]) := by
  have hfe : ∀ i c, (f i c).isEmpty = false := by
    intro i c
    cases hfc : f i c with
    | nil => exact absurd hfc (hf i c)
    | cons _ _ => rfl
  have key : handlerChunked m st (sumFailsAt 3) f text req
      = ⟨.serverError,
          putChunk (putChunk (putChunk st req.issueNumber 0 (f 0 c0))
            req.issueNumber 1 (f 1 c1)) req.issueNumber 2 (f 2 c2),
          [0, 1, 2, 3], 1, [0, 1, 2, 3], true, true⟩ := by
    simp [handlerChunked, handlerChunkedBody, hmeth, hp, hi, ht, hdoc, sumFailsAt,
      hsplit, chunkLoop, hchunk, putChunk]
  rw [key]
  refine ⟨rfl, rfl, ?_, ?_, ?_, ?_, ?_, ?_, ?_, ?_⟩
  · simp [putChunk]
  · simp [putChunk]
  · simp [putChunk]
  · simp [putChunk, hchunk]
  · simp [putChunk, hchunk]
  · simp [putChunk, hdoc]
  · simp [handlerChunked, handlerChunkedBody, hmeth, hp, hi, ht, noFaults, hsplit,
      chunkLoop, putChunk, hchunk, hdoc, hfe]
  · simp [handlerChunked, handlerChunkedBody, hmeth, hp, hi, ht, noFaults, hsplit,
      chunkLoop, putChunk, hchunk, hdoc, hfe]

/-! ### Witnesses for claims C1, C2, C5, C7 -/

/-- Witness for claim C1 at the empty text. -/
theorem c1_witness :
    (splitIntoChunks [] 1
        = if ([] : List Char) = [] then [[]] else if 1 = 1 then [[], []] else [[' ']]) ∧
    splitIntoChunks [] 1 ≠ [] ∧
    (([] : List Char) = [] →
      (handlerChunked 1 ⟨fun _ => none, fun _ _ => none⟩ noFaults (fun _ _ => ['S'])
          [] ⟨postMethod, .str ['u'], .str ['n']⟩).calls = [0] ∧
      (handlerChunked 1 ⟨fun _ => none, fun _ _ => none⟩ noFaults (fun _ _ => ['S'])
          [] ⟨postMethod, .str ['u'], .str ['n']⟩).resp = .ok ['S']) :=
  c1_amended_empty_input [] 1 (by decide) (by simp) ⟨fun _ => none, fun _ _ => none⟩
    (fun _ _ => ['S']) ⟨postMethod, .str ['u'], .str ['n']⟩ rfl rfl rfl rfl rfl
    (fun _ => rfl)

/-- Witness for claim C2 at a concrete trimmed text. -/
theorem c2_witness :
    (∀ (i : Nat) (c : List Char),
        (splitIntoChunks ['a', ' ', 'b', ' ', 'c'] 2)[i]? = some c →
        i + 1 < (splitIntoChunks ['a', ' ', 'b', ' ', 'c'] 2).length → countWords c = 2) ∧
    (∀ c : List Char, (splitIntoChunks ['a', ' ', 'b', ' ', 'c'] 2).getLast? = some c →
        1 ≤ countWords c ∧ countWords c ≤ 2) :=
  c2_amended_chunk_word_counts ['a', ' ', 'b', ' ', 'c'] 2 (by decide) (by decide)
    (by
      intro x hx
      rw [show (['a', ' ', 'b', ' ', 'c'] : List Char).head? = some 'a' from rfl] at hx
      injection hx with h
      subst h
      decide)
    (by
      intro x hx
      rw [show (['a', ' ', 'b', ' ', 'c'] : List Char).getLast? = some 'c' from by decide] at hx
      injection hx with h
      subst h
      decide)

/-- Witness for claim C5 at a concrete five-chunk document with chunk 2
cached. -/
theorem c5_witness :
    (handlerChunked 1
        ⟨fun _ => none, fun _ j => if j = 2 then some ['Z'] else none⟩ noFaults
        (fun _ _ => ['S']) ['a', ' ', 'b', ' ', 'c', ' ', 'd', ' ', 'e']
        ⟨postMethod, .str ['u'], .str ['n']⟩).calls = [0, 1, 3, 4] ∧
    (handlerChunked 1
        ⟨fun _ => none, fun _ j => if j = 2 then some ['Z'] else none⟩ noFaults
        (fun _ _ => ['S']) ['a', ' ', 'b', ' ', 'c', ' ', 'd', ' ', 'e']
        ⟨postMethod, .str ['u'], .str ['n']⟩).resp
      = .ok (assemble [(0, ['S']), (1, ['S']), (2, ['Z']), (3, ['S']), (4, ['S'])]) :=
  c5_partial_chunk_cache_reuse 1
    ⟨fun _ => none, fun _ j => if j = 2 then some ['Z'] else none⟩
    (fun _ _ => ['S']) ['a', ' ', 'b', ' ', 'c', ' ', 'd', ' ', 'e']
    ⟨postMethod, .str ['u'], .str ['n']⟩ ['a'] ['b'] ['c'] ['d'] ['e'] ['Z']
    rfl rfl rfl rfl (by decide) rfl rfl rfl rfl (by decide) rfl rfl

/-- Witness for claim C7 at a concrete five-chunk document. -/
theorem c7_witness :
    (handlerChunked 1 ⟨fun _ => none, fun _ _ => none⟩ (sumFailsAt 3) (fun _ _ => ['S'])
        ['a', ' ', 'b', ' ', 'c', ' ', 'd', ' ', 'e']
        ⟨postMethod, .str ['u'], .str ['n']⟩).resp = .serverError ∧
    (handlerChunked 1 ⟨fun _ => none, fun _ _ => none⟩ (sumFailsAt 3) (fun _ _ => ['S'])
        ['a', ' ', 'b', ' ', 'c', ' ', 'd', ' ', 'e']
        ⟨postMethod, .str ['u'], .str ['n']⟩).calls = [0, 1, 2, 3] ∧
    (handlerChunked 1 ⟨fun _ => none, fun _ _ => none⟩ (sumFailsAt 3) (fun _ _ => ['S'])
        ['a', ' ', 'b', ' ', 'c', ' ', 'd', ' ', 'e']
        ⟨postMethod, .str ['u'], .str ['n']⟩).store.chunk (.str ['n']) 0 = some ['S'] ∧
    (handlerChunked 1 ⟨fun _ => none, fun _ _ => none⟩ (sumFailsAt 3) (fun _ _ => ['S'])
        ['a', ' ', 'b', ' ', 'c', ' ', 'd', ' ', 'e']
        ⟨postMethod, .str ['u'], .str ['n']⟩).store.chunk (.str ['n']) 1 = some ['S'] ∧
    (handlerChunked 1 ⟨fun _ => none, fun _ _ => none⟩ (sumFailsAt 3) (fun _ _ => ['S'])
        ['a', ' ', 'b', ' ', 'c', ' ', 'd', ' ', 'e']
        ⟨postMethod, .str ['u'], .str ['n']⟩).store.chunk (.str ['n']) 2 = some ['S'] ∧
    (handlerChunked 1 ⟨fun _ => none, fun _ _ => none⟩ (sumFailsAt 3) (fun _ _ => ['S'])
        ['a', ' ', 'b', ' ', 'c', ' ', 'd', ' ', 'e']
        ⟨postMethod, .str ['u'], .str ['n']⟩).store.chunk (.str ['n']) 3 = none ∧
    (handlerChunked 1 ⟨fun _ => none, fun _ _ => none⟩ (sumFailsAt 3) (fun _ _ => ['S'])
        ['a', ' ', 'b', ' ', 'c', ' ', 'd', ' ', 'e']
        ⟨postMethod, .str ['u'], .str ['n']⟩).store.chunk (.str ['n']) 4 = none ∧
    (handlerChunked 1 ⟨fun _ => none, fun _ _ => none⟩ (sumFailsAt 3) (fun _ _ => ['S'])
        ['a', ' ', 'b', ' ', 'c', ' ', 'd', ' ', 'e']
        ⟨postMethod, .str ['u'], .str ['n']⟩).store.doc (.str ['n']) = none ∧
    (handlerChunked 1
        (handlerChunked 1 ⟨fun _ => none, fun _ _ => none⟩ (sumFailsAt 3) (fun _ _ => ['S'])
          ['a', ' ', 'b', ' ', 'c', ' ', 'd', ' ', 'e']
          ⟨postMethod, .str ['u'], .str ['n']⟩).store noFaults (fun _ _ => ['S'])
        ['a', ' ', 'b', ' ', 'c', ' ', 'd', ' ', 'e']
        ⟨postMethod, .str ['u'], .str ['n']⟩).calls = [3, 4] ∧
    (handlerChunked 1
        (handlerChunked 1 ⟨fun _ => none, fun _ _ => none⟩ (sumFailsAt 3) (fun _ _ => ['S'])
          ['a', ' ', 'b', ' ', 'c', ' ', 'd', ' ', 'e']
          ⟨postMethod, .str ['u'], .str ['n']⟩).store noFaults (fun _ _ => ['S'])
        ['a', ' ', 'b', ' ', 'c', ' ', 'd', ' ', 'e']
        ⟨postMethod, .str ['u'], .str ['n']⟩).resp
      = .ok (assemble [(0, ['S']), (1, ['S']), (2, ['S']), (3, ['S']), (4, ['S'])]) :=
  c7_amended_resume_after_failure 1 ⟨fun _ => none, fun _ _ => none⟩ (fun _ _ => ['S'])
    ['a', ' ', 'b', ' ', 'c', ' ', 'd', ' ', 'e'] ⟨postMethod, .str ['u'], .str ['n']⟩
    ['a'] ['b'] ['c'] ['d'] ['e'] rfl rfl rfl rfl (by decide) rfl (fun _ => rfl)
    (fun _ _ => List.cons_ne_nil 'S' [])

/-! ### Claim C9: streaming event order -/

/-- Every pair in a zip with `range' i k` has first component at least `i`. -/
theorem zip_range'_fst_ge (k : Nat) :
    ∀ (i : Nat) (l : List (List Char)) (p : Nat × List Char),
      p ∈ (List.range' i k).zip l → i ≤ p.1 := by
  induction k with
  | zero => intro i l p hp; simp [List.range'] at hp
  | succ k' ih =>
    intro i l p hp
    cases l with
    | nil => simp at hp
    | cons x t =>
      rw [List.range'_succ, List.zip_cons_cons] at hp
      rcases List.mem_cons.mp hp with hcase | hcase
      · subst hcase; simp
      · have := ih (i + 1) t p hcase; omega

/-- Zipping with `range' i k` yields strictly ascending first components. -/
theorem zip_range'_fst_pairwise (k : Nat) :
    ∀ (i : Nat) (l : List (List Char)),
      ((List.range' i k).zip l).Pairwise (fun a b => a.1 < b.1) := by
  induction k with
  | zero => intro i l; simp [List.range']
  | succ k' ih =>
    intro i l
    cases l with
    | nil => simp
    | cons x t =>
      rw [List.range'_succ, List.zip_cons_cons]
      refine List.Pairwise.cons ?_ (ih (i + 1) t)
      intro p hp
      have := zip_range'_fst_ge k' (i + 1) t p hp
      simp only []
      omega

/-- Second components of a zip with an equal-length `range'`. -/
theorem zip_range'_map_snd (k : Nat) :
    ∀ (i : Nat) (l : List (List Char)), l.length = k →
      ((List.range' i k).zip l).map Prod.snd = l := by
  induction k with
  | zero =>
    intro i l hlen
    cases l with
    | nil => rfl
    | cons x t => simp at hlen
  | succ k' ih =>
    intro i l hlen
    cases l with
    | nil => simp at hlen
    | cons x t =>
      rw [List.range'_succ, List.zip_cons_cons, List.map_cons,
        ih (i + 1) t (by simpa using hlen)]

/-- Under a fault-free run the streaming loop succeeds and emits exactly
one per-chunk record per chunk, in ascending index order, matching the
accumulated `chunkSummaries` array. -/
theorem streamLoop_noFaults (id : JSVal) (f : Nat → List Char → List Char) :
    ∀ (cs : List (List Char)) (i : Nat) (st : Store),
      ∃ (contents : List (List Char)) (st' : Store) (calls : List Nat),
        streamLoop id noFaults f cs i st
          = .ok st' (((List.range' i cs.length).zip contents).map
              (fun p => Event.chunkDone p.1 p.2)) calls
              ((List.range' i cs.length).zip contents)
          ∧ contents.length = cs.length := by
  intro cs
  induction cs with
  | nil => intro i st; exact ⟨[], st, [], rfl, rfl⟩
  | cons c rest ih =>
    intro i st
    cases hc : st.chunk id i with
    | some s =>
      by_cases hse : s.isEmpty
      · obtain ⟨cont', st', calls, heq, hlen⟩ := ih (i + 1) (putChunk st id i (f i c))
        refine ⟨f i c :: cont', st', i :: calls, ?_, by simp [hlen]⟩
        rw [show streamLoop id noFaults f (c :: rest) i st
              = (match streamLoop id noFaults f rest (i + 1) (putChunk st id i (f i c)) with
                 | .ok st' evs cls sums =>
                   .ok st' (.chunkDone i (f i c) :: evs) (i :: cls) ((i, f i c) :: sums)
                 | .err st' evs cls => .err st' (.chunkDone i (f i c) :: evs) (i :: cls))
            by simp [streamLoop, noFaults, hc, hse]]
        rw [heq]
        simp [List.range'_succ, hlen]
      · obtain ⟨cont', st', calls, heq, hlen⟩ := ih (i + 1) st
        refine ⟨s :: cont', st', calls, ?_, by simp [hlen]⟩
        rw [show streamLoop id noFaults f (c :: rest) i st
              = (match streamLoop id noFaults f rest (i + 1) st with
                 | .ok st' evs cls sums =>
                   .ok st' (.chunkDone i s :: evs) cls ((i, s) :: sums)
                 | .err st' evs cls => .err st' (.chunkDone i s :: evs) cls)
            by simp [streamLoop, noFaults, hc, hse]]
        rw [heq]
        simp [List.range'_succ, hlen]
    | none =>
      obtain ⟨cont', st', calls, heq, hlen⟩ := ih (i + 1) (putChunk st id i (f i c))
      refine ⟨f i c :: cont', st', i :: calls, ?_, by simp [hlen]⟩
      rw [show streamLoop id noFaults f (c :: rest) i st
            = (match streamLoop id noFaults f rest (i + 1) (putChunk st id i (f i c)) with
               | .ok st' evs cls sums =>
                 .ok st' (.chunkDone i (f i c) :: evs) (i :: cls) ((i, f i c) :: sums)
               | .err st' evs cls => .err st' (.chunkDone i (f i c) :: evs) (i :: cls))
          by simp [streamLoop, noFaults, hc]]
      rw [heq]
      simp [List.range'_succ, hlen]

/-- Claim C9: in streaming mode, a fault-free run on a document-cache miss
emits, in order, the start record carrying the total chunk count, exactly
one record per chunk carrying its index and summary text in ascending index
order 0..n-1, and finally the record carrying the complete assembled
summary (the per-chunk texts joined with the paragraph separator). -/
theorem c9_streaming_event_order (m : Nat) (st : Store)
    (f : Nat → List Char → List Char) (text : List Char) (req : Req)
    (hmeth : req.method = postMethod) (hp : falsy req.pdfUrl = false)
    (hi : falsy req.issueNumber = false) (hdoc : st.doc req.issueNumber = none) :
    ∃ contents : List (List Char),
      contents.length = (splitIntoChunks text m).length ∧
      (handlerStreaming m st noFaults f text req).events
        = .start (splitIntoChunks text m).length
            :: ((List.range' 0 (splitIntoChunks text m).length).zip contents).map
                (fun p => Event.chunkDone p.1 p.2)
            ++ [.final (joinWith nl2 contents)] := by
  obtain ⟨contents, st', calls, heq, hlen⟩ :=
    streamLoop_noFaults req.issueNumber f (splitIntoChunks text m) 0 st
  refine ⟨contents, hlen, ?_⟩
  have hassemble :
      assemble ((List.range' 0 (splitIntoChunks text m).length).zip contents)
        = joinWith nl2 contents := by
    unfold assemble
    rw [sortByIndex_of_pairwise_lt _ (zip_range'_fst_pairwise _ 0 contents)]
    rw [zip_range'_map_snd _ 0 contents hlen]
  rw [show handlerStreaming m st noFaults f text req
        = handlerStreamingBody m st noFaults f text req
      by simp [handlerStreaming, hmeth, hp, hi, hdoc, noFaults]]
  unfold handlerStreamingBody
  rw [if_neg (by simp [noFaults])]
  rw [heq]
  simp [hassemble]

/-- Witness for claim C9 at a concrete two-chunk document. -/
theorem c9_witness :
    ∃ contents : List (List Char),
      contents.length = (splitIntoChunks ['x', ' ', 'y'] 1).length ∧
      (handlerStreaming 1 ⟨fun _ => none, fun _ _ => none⟩ noFaults (fun _ _ => ['S'])
          ['x', ' ', 'y'] ⟨postMethod, .str ['u'], .str ['n']⟩).events
        = .start (splitIntoChunks ['x', ' ', 'y'] 1).length
            :: ((List.range' 0 (splitIntoChunks ['x', ' ', 'y'] 1).length).zip contents).map
                (fun p => Event.chunkDone p.1 p.2)
            ++ [.final (joinWith nl2 contents)] :=
  c9_streaming_event_order 1 ⟨fun _ => none, fun _ _ => none⟩ (fun _ _ => ['S'])
    ['x', ' ', 'y'] ⟨postMethod, .str ['u'], .str ['n']⟩ rfl rfl rfl rfl
